import Mathlib

/-!
Verification development for the videorobot render pipeline.

The Python sources are shallowly embedded: pure functions become Lean
functions over exact rationals (`ℚ` stands for IEEE doubles, with an
explicit `EFloat` wrapper where NaN/±Inf behaviour matters), stateful
pipelines become explicit state passing, fallible code returns `Except`
or `Option`.  External tool invocations (ffmpeg/ffprobe) are abstracted
to symbolic commands recorded in a trace list; their measured outputs are
parameters of an environment record.
-/

/-- IEEE-style extended value: a finite rational, +inf, -inf, or NaN.
Finite arithmetic is exact (no rounding/overflow model). -/
inductive EFloat where
  | fin : ℚ → EFloat
  | pinf : EFloat
  | ninf : EFloat
  | nan : EFloat
deriving DecidableEq, Repr

namespace EFloat

/-- IEEE addition (NaN propagates, inf + (-inf) = NaN). -/
def add : EFloat → EFloat → EFloat
  | nan, _ => nan
  | _, nan => nan
  | pinf, ninf => nan
  | ninf, pinf => nan
  | pinf, _ => pinf
  | _, pinf => pinf
  | ninf, _ => ninf
  | _, ninf => ninf
  | fin a, fin b => fin (a + b)

/-- IEEE negation. -/
def neg : EFloat → EFloat
  | fin a => fin (-a)
  | pinf => ninf
  | ninf => pinf
  | nan => nan

/-- IEEE subtraction, `a - b = a + (-b)`. -/
def sub (a b : EFloat) : EFloat := add a (neg b)

/-- IEEE `<` (any comparison with NaN is false). -/
def lt : EFloat → EFloat → Bool
  | nan, _ => false
  | _, nan => false
  | ninf, ninf => false
  | ninf, _ => true
  | _, ninf => false
  | pinf, _ => false
  | fin _, pinf => true
  | fin a, fin b => decide (a < b)

/-- `math.isfinite` / not (isnan or isinf). -/
def isFinite : EFloat → Bool
  | fin _ => true
  | _ => false

end EFloat

/-- Python`s two-argument `max(a, b)`: returns `b` when `b > a`, else `a`
(hence `max(0.0, nan) = 0.0`). -/
def pymax (a b : EFloat) : EFloat := if EFloat.lt a b then b else a

/-- Python `int(q)` on a rational: truncation toward zero. -/
def pyint (q : ℚ) : ℤ := if 0 ≤ q then ⌊q⌋ else ⌈q⌉

/-- audio_processor._sanitize_db: NaN/Inf are replaced by `default`,
finite values are clamped into `[min_val, max_val]` via
`max(min_val, min(max_val, value))`. -/
def _sanitize_db (value : EFloat) (min_val max_val default : ℚ) : ℚ :=
  match value with
  | .fin q => max min_val (min max_val q)
  | _ => default

/-- Loudness statistics parsed from one loudnorm JSON report.  Each key is
`none` when absent from the report; values are extended floats because the
tool prints strings such as "-inf". -/
structure LoudStats where
  input_i : Option EFloat := none
  measured_I : Option EFloat := none
  input_lra : Option EFloat := none
  measured_LRA : Option EFloat := none
  input_tp : Option EFloat := none
  measured_TP : Option EFloat := none
  input_thresh : Option EFloat := none
  measured_thresh : Option EFloat := none
  target_offset : Option EFloat := none
  offset : Option EFloat := none
deriving DecidableEq, Repr

/-- audio_processor._coalesce specialised to two candidates: the first
value that is not `None`, else the default. -/
def _coalesce2 (a b : Option EFloat) (default : EFloat) : EFloat :=
  match a with
  | some v => v
  | none => match b with
    | some v => v
    | none => default

/-- The measured per-channel integrated loudness used by
`AudioProcessor.normalize`: `_coalesce(stats.get("input_i"),
stats.get("measured_I"), default=targets.I)`. -/
def measuredInput (I : ℚ) (st : LoudStats) : EFloat :=
  _coalesce2 st.input_i st.measured_I (.fin I)

/-- Per-channel pre-balancing gain of `AudioProcessor.normalize`:
`_sanitize_db(targets.I - input_channel, -24.0, 24.0, 0.0)`. -/
def channelGain (I : ℚ) (st : LoudStats) : ℚ :=
  _sanitize_db (EFloat.sub (.fin I) (measuredInput I st)) (-24) 24 0

/-- Symbolic record of one external ffmpeg/ffprobe invocation made by the
normalization pipeline. -/
inductive Cmd where
  | ensureStereo : Cmd
  | measureChannel : Bool → Cmd
  | applyGain : ℚ → ℚ → Cmd
  | loudnormPass1 : Cmd
  | loudnormPass2 : EFloat → EFloat → EFloat → EFloat → EFloat → Cmd
deriving DecidableEq, Repr

/-- Errors raised by `AudioProcessor.normalize`. -/
inductive NormErr where
  | fileNotFound : NormErr
  | typeError : NormErr
  | runtimeError : NormErr
deriving DecidableEq, Repr

/-- The duck-typed `config` object passed to `normalize`: each target
attribute is absent (`none`), present but not convertible by `float()`
(`some none`), or convertible to a number (`some (some q)`). -/
structure NormCfg where
  target_lufs : Option (Option ℚ)
  target_lra : Option (Option ℚ)
  target_tp : Option (Option ℚ)

/-- Environment of external measurement results consumed by the pipeline:
the loudnorm reports extracted for the left and right channels, and the
pass-1 report of the two-pass stage (`none` when no JSON block parsed). -/
structure MeasEnv where
  left_stats : LoudStats
  right_stats : LoudStats
  pass1_stats : Option LoudStats

/-- audio_processor._apply_per_channel_gain: the gains embedded in the
channelsplit/volume/join filter graph are re-sanitized into [-24, 24]. -/
def _apply_per_channel_gain (gain_left_db gain_right_db : ℚ) : Cmd :=
  Cmd.applyGain (_sanitize_db (.fin gain_left_db) (-24) 24 0)
    (_sanitize_db (.fin gain_right_db) (-24) 24 0)

/-- AudioProcessor.normalize, with external processing abstracted to the
trace of commands issued.  Mirrors the source order: source-existence
check, target extraction (absent/non-numeric raises TypeError), stereo
conversion, per-channel measurement, per-channel gain, two-pass loudnorm
(pass 1 yielding no parseable JSON is fatal). -/
def AudioProcessor.normalize (sourceExists : Bool) (cfg : NormCfg)
    (env : MeasEnv) : Except NormErr Unit × List Cmd :=
  if sourceExists = false then (.error .fileNotFound, [])
  else
    match cfg.target_lufs.bind id, cfg.target_lra.bind id,
        cfg.target_tp.bind id with
    | some I, some LRA, some TP =>
      let gain_left := channelGain I env.left_stats
      let gain_right := channelGain I env.right_stats
      let trace := [Cmd.ensureStereo, Cmd.measureChannel false,
        Cmd.measureChannel true,
        _apply_per_channel_gain gain_left gain_right, Cmd.loudnormPass1]
      match env.pass1_stats with
      | none => (.error .runtimeError, trace)
      | some st =>
        let measured_I := _coalesce2 st.input_i st.measured_I (.fin I)
        let measured_LRA := _coalesce2 st.input_lra st.measured_LRA (.fin 11)
        let measured_TP := _coalesce2 st.input_tp st.measured_TP (.fin (-2))
        let measured_thresh :=
          _coalesce2 st.input_thresh st.measured_thresh (.fin (-70))
        let offset := _coalesce2 st.target_offset st.offset (.fin 0)
        (.ok (), trace ++ [Cmd.loudnormPass2 measured_I measured_LRA
          measured_TP measured_thresh offset])
    | _, _, _ => (.error .typeError, [])

/-- subtitles.TimeFormatter.clamp: add offset, floor both times at 0 via
Python `max(0.0, x)`, replace a non-finite pair with the default window,
then force `end` at least `start + 0.001`. -/
def TimeFormatter.clamp (start «end» offset : EFloat) : EFloat × EFloat :=
  let s0 := pymax (.fin 0) (EFloat.add start offset)
  let e0 := pymax (.fin 0) (EFloat.add «end» offset)
  let p := if s0.isFinite = false ∨ e0.isFinite = false
    then ((EFloat.fin 0), (EFloat.fin (1/1000))) else (s0, e0)
  let s := p.1
  let e1 := if EFloat.lt p.2 s then EFloat.add s (.fin (1/1000)) else p.2
  let e2 := if EFloat.lt (EFloat.sub e1 s) (.fin (1/1000))
    then EFloat.add s (.fin (1/1000)) else e1
  (s, e2)

/-- Python `str.strip()` on a character list: drop leading and trailing
whitespace. -/
def pyStrip (cs : List Char) : List Char :=
  ((cs.dropWhile Char.isWhitespace).reverse.dropWhile Char.isWhitespace).reverse

/-- The regex character class `[0-9A-Fa-f]` as code-point ranges. -/
def isHexDig (c : Char) : Bool :=
  (48 ≤ c.toNat && c.toNat ≤ 57) || (65 ≤ c.toNat && c.toNat ≤ 70) ||
    (97 ≤ c.toNat && c.toNat ≤ 102)

/-- Python `str.upper()` restricted to the characters it is applied to in
`hex_to_bgr` (hex digits): lowercase hex letters map to uppercase, all
other characters are unchanged. -/
def pyUpper (c : Char) : Char :=
  if c = 'a' then 'A' else if c = 'b' then 'B' else if c = 'c' then 'C'
  else if c = 'd' then 'D' else if c = 'e' then 'E' else if c = 'f' then 'F'
  else c

/-- Numeric value of a hex digit (0 for non-digits). -/
def hexVal : Char → ℕ
  | '0' => 0 | '1' => 1 | '2' => 2 | '3' => 3 | '4' => 4
  | '5' => 5 | '6' => 6 | '7' => 7 | '8' => 8 | '9' => 9
  | 'a' => 10 | 'b' => 11 | 'c' => 12 | 'd' => 13 | 'e' => 14 | 'f' => 15
  | 'A' => 10 | 'B' => 11 | 'C' => 12 | 'D' => 13 | 'E' => 14 | 'F' => 15
  | _ => 0

/-- The slicing `h[0:2], h[2:4], h[4:6]` followed by `f"{bb}{gg}{rr}"` on a
6-character list: swap the first and last digit pairs. -/
def bgrOfDigits : List Char → List Char
  | [r1, r2, g1, g2, b1, b2] => [b1, b2, g1, g2, r1, r2]
  | l => l

/-- subtitles.ColorConverter.hex_to_bgr on a character list: strip
whitespace, drop leading hash marks (`lstrip("#")`), require exactly six
hex digits (the `^#?[0-9A-Fa-f]\x7b6\x7d$` check against `"#" + h`),
then emit the byte-reversed digits upper-cased, defaulting to white. -/
def hexToBgrL (cs : List Char) : List Char :=
  let h := (pyStrip cs).dropWhile (fun c => c == '#')
  if h.length = 6 ∧ h.all isHexDig = true then (bgrOfDigits h).map pyUpper
  else ['F', 'F', 'F', 'F', 'F', 'F']

/-- subtitles.ColorConverter.hex_to_bgr (string wrapper). -/
def hex_to_bgr (s : String) : String := String.mk (hexToBgrL s.data)

/-- The control characters removed by `TextSanitizer.for_ass`:
`[\x00-\x08\x0B-\x1F\x7F]`. -/
def isCtrl (c : Char) : Bool :=
  (c.toNat ≤ 8) || (11 ≤ c.toNat && c.toNat ≤ 31) || (c.toNat = 127)

/-- The three sequential replacements of `TextSanitizer.for_ass` (their
domains and ranges are disjoint, so they fuse into one character map):
backslash to U+29F5, braces to parentheses. -/
def assRepl (c : Char) : Char :=
  if c = '\\' then '⧵' else if c = '\x7b' then '(' else
  if c = '\x7d' then ')' else c

/-- Modelled from the spec: `TextSanitizer.for_ass` as documented and
intended ("control characters stripped, literal backslash and both brace
characters replaced with safe equivalents").  The source line
`s.replace(r"\", "⧵")` at subtitles.py:128 is a Python syntax error (a raw
string cannot end in a backslash), so the function as written never
parses; this definition follows the documented intent. -/
def TextSanitizer.for_ass (s : String) : String :=
  String.mk (pyStrip ((s.data.filter (fun c => !isCtrl c)).map assRepl))

/-- subtitles.Word: a word with start/end times (seconds) and raw text. -/
structure Word where
  start : ℚ
  «end» : ℚ
  text : String
deriving DecidableEq, Repr

/-- Word.is_sentence_end: `text.endswith((".", "?", "!"))` — for these
one-character suffixes, the last character is ".", "?" or "!". -/
def Word.is_sentence_end (w : Word) : Bool :=
  match w.text.data.getLast? with
  | some c => c = '.' || c = '?' || c = '!'
  | none => false

/-- subtitles.CaptionConfig (Python ints modelled as ℤ). -/
structure CaptionConfig where
  font_name : String := "DejaVu Sans"
  font_size : ℤ := 48
  active_color : String := "#FFFFFF"
  keyword_color : String := "#00FFFF"
  border_thickness : ℤ := 2
  max_words_per_line : ℤ := 6
  max_words_per_caption : ℤ := 8
  max_caption_ms : ℤ := 4500
  position : String := "Bottom"
  margin_v : ℤ := 80
deriving DecidableEq, Repr

/-- The duck-typed `cfg` object read by `CaptionConfig.from_cfg` through
`getattr(cfg, name, default)`: `none` models an absent attribute. -/
structure CfgAttrs where
  font_name : Option String := none
  font_size : Option ℤ := none
  active_color : Option String := none
  keyword_color : Option String := none
  border_thickness : Option ℤ := none
  max_words_per_line : Option ℤ := none
  max_words_per_caption : Option ℤ := none
  max_caption_ms : Option ℤ := none
  position : Option String := none
  margin_v : Option ℤ := none

/-- subtitles.CaptionConfig.from_cfg: attributes with class defaults,
border thickness floored at 2, both word caps floored at 1. -/
def CaptionConfig.from_cfg (cfg : CfgAttrs) : CaptionConfig :=
  { font_name := cfg.font_name.getD ("DejaVu Sans")
    font_size := cfg.font_size.getD 48
    active_color := cfg.active_color.getD ("#FFFFFF")
    keyword_color := cfg.keyword_color.getD ("#00FFFF")
    border_thickness := max 2 (cfg.border_thickness.getD 2)
    max_words_per_line := max 1 (cfg.max_words_per_line.getD 6)
    max_words_per_caption := max 1 (cfg.max_words_per_caption.getD 8)
    max_caption_ms := cfg.max_caption_ms.getD 4500
    position := cfg.position.getD ("Bottom")
    margin_v := cfg.margin_v.getD 80 }

/-- CaptionSegmenter._split_into_sentences, inner loop: append each word
to the current sentence, flush on sentence-terminal punctuation, emit a
trailing non-empty sentence. -/
def splitSentencesGo : List (List Word) → List Word → List Word →
    List (List Word)
  | sentences, current, [] =>
    if current = [] then sentences else sentences ++ [current]
  | sentences, current, w :: ws =>
    let current2 := current ++ [w]
    if w.is_sentence_end then splitSentencesGo (sentences ++ [current2]) [] ws
    else splitSentencesGo sentences current2 ws

/-- CaptionSegmenter._split_into_sentences. -/
def _split_into_sentences (ws : List Word) : List (List Word) :=
  splitSentencesGo [] [] ws

/-- One sentence of CaptionSegmenter._split_into_chunks: append the word,
then cut when the chunk reached `max_words_per_caption` words or its span
`int((current[-1].end - current[0].start) * 1000)` reached
`max_caption_ms`; a trailing non-empty chunk is emitted. -/
def chunkSentence (cfg : CaptionConfig) : List Word → List Word →
    List (List Word)
  | current, [] => if current = [] then [] else [current]
  | current, w :: ws =>
    let current2 := current ++ [w]
    let first := match current with
      | [] => w
      | c :: _ => c
    let duration_ms := pyint ((w.«end» - first.start) * 1000)
    if cfg.max_words_per_caption ≤ (current2.length : ℤ) ∨
        cfg.max_caption_ms ≤ duration_ms then
      current2 :: chunkSentence cfg [] ws
    else chunkSentence cfg current2 ws

/-- CaptionSegmenter._split_into_chunks: the chunk list accumulates over
the sentence groups in order, the in-progress chunk resets per group. -/
def _split_into_chunks (cfg : CaptionConfig)
    (sentences : List (List Word)) : List (List Word) :=
  (sentences.map (fun s => chunkSentence cfg [] s)).flatten

/-- CaptionSegmenter.segment: sentences, then display-sized chunks. -/
def CaptionSegmenter.segment (cfg : CaptionConfig) (ws : List Word) :
    List (List Word) :=
  _split_into_chunks cfg (_split_into_sentences ws)

/-- backend.config._validate_float_range: `ValueError` unless
`min_val <= num <= max_val`. -/
def _validate_float_range (name : String) (value min_val max_val : ℚ) :
    Except String ℚ :=
  if min_val ≤ value ∧ value ≤ max_val then .ok value
  else .error (name ++ (" out of range"))

/-- backend.config regex `^#?[0-9a-fA-F]\x7b6\x7d$`: one optional leading
hash then exactly six hex digits. -/
def matchesHexColor : List Char → Bool
  | '#' :: r => r.length == 6 && r.all isHexDig
  | r => r.length == 6 && r.all isHexDig

/-- backend.config._ensure_hex_color: validate, and return the color with
a canonical leading hash. -/
def _ensure_hex_color (color : String) : Except String String :=
  if matchesHexColor color.data then
    .ok (if color.startsWith ("#") then color else ("#") ++ color)
  else .error ("invalid color")

/-- backend.config.CaptionPosition.parse on strings: lower-case and map
top/middle/center/bottom to the canonical value. -/
def parsePosition (s : String) : Except String String :=
  let n := s.trim.toLower
  if n = "top" then .ok ("Top")
  else if n = "middle" then .ok ("Middle")
  else if n = "center" then .ok ("Middle")
  else if n = "bottom" then .ok ("Bottom")
  else .error ("invalid position")

/-- backend.config.CTACfg. -/
structure CTACfg where
  loop_mp4 : Option String
  start_s : ℚ
  repeat_s : ℚ
  key_color : String
  similarity : ℚ
  blend : ℚ
  position : String

/-- backend.config.CTACfg.validate: range-check start/repeat/similarity/
blend, then canonicalise the key color and position. -/
def CTACfg.validate (c : CTACfg) : Except String CTACfg := do
  let _ ← _validate_float_range ("cta.start_s") c.start_s 0 36000
  let _ ← _validate_float_range ("cta.repeat_s") c.repeat_s (1/100) 36000
  let _ ← _validate_float_range ("cta.similarity") c.similarity 0 1
  let _ ← _validate_float_range ("cta.blend") c.blend 0 1
  let kc ← _ensure_hex_color c.key_color
  let p ← parsePosition c.position
  .ok { c with key_color := kc, position := p }

/-- C-style `fmod(a, b)`: remainder after truncating division, as used by
the media tool's `mod` expression function. -/
def pyfmod (a b : ℚ) : ℚ := a - b * (pyint (a / b) : ℚ)

/-- Modelled from the spec: the CTA overlay gating expression built by the
(absent from src/) FilterGraphBuilder — "t ≥ start AND
(t − start) mod repeat == 0". -/
def ctaGate (start rep t : ℚ) : Bool :=
  decide (start ≤ t) && decide (pyfmod (t - start) rep = 0)

/-- Scan forward from just after an opening brace, tracking nesting depth;
return the balanced block (accumulated characters) and the rest of the
input, or `none` when the brace never closes. -/
def matchBrace : ℕ → List Char → List Char → Option (List Char × List Char)
  | _, _, [] => none
  | depth, acc, c :: cs =>
    if c = '\x7b' then matchBrace (depth + 1) (acc ++ [c]) cs
    else if c = '\x7d' then
      if depth = 1 then some (acc ++ [c], cs)
      else matchBrace (depth - 1) (acc ++ [c]) cs
    else matchBrace depth (acc ++ [c]) cs

/-- Left-to-right scan for non-overlapping balanced-brace blocks, the
match set of the recursive pattern `\x7b(?:[^\x7b\x7d]|(?R))*\x7d`.
`fuel` bounds the recursion (callers pass the input length). -/
def findBlocksGo : ℕ → List Char → List (List Char)
  | 0, _ => []
  | _ + 1, [] => []
  | fuel + 1, c :: cs =>
    if c = '\x7b' then
      match matchBrace 1 [c] cs with
      | some (blk, rest) => blk :: findBlocksGo fuel rest
      | none => findBlocksGo fuel cs
    else findBlocksGo fuel cs

/-- Modelled from the spec: audio_processor._extract_last_json — "Parse
the last well-formed structured block found in the tool's diagnostic
stream".  The source's `_JSON_PATTERN` uses the recursive extension
`(?R)`, which the stdlib `re` module rejects at compile time, so the
function as written never runs; this definition follows the documented
intent, returning the last balanced block (`none` standing for the empty
report `\x7b\x7d`). -/
def _extract_last_json (s : String) : Option String :=
  (findBlocksGo (s.data.length + 1) s.data).getLast?.map String.mk

/-- Modelled from the spec: one call to the (absent from src/)
FilterGraphBuilder. -/
inductive FGCall where
  | addBase : ℕ → String → FGCall
  | addScaledInput : ℕ → String → FGCall
  | overlay : String → Option String → FGCall
  | chromaKeyOverlay : ℕ → String → ℚ → ℚ → String → FGCall
  | burnSubtitles : String → String → String → ℤ → FGCall
deriving DecidableEq, Repr

/-- Modelled from the spec: FilterGraphBuilder state — "an ordered list of
filter-chain strings, a monotonic label counter, and a current output
label"; `labels` additionally records every allocated label in order. -/
structure FGB where
  chains : List String
  counter : ℕ
  current : String
  labels : List String
deriving DecidableEq, Repr

/-- Allocate the next label `v0`, `v1`, ... -/
def FGB.newLabel (b : FGB) : String × FGB :=
  let n := b.counter
  let lbl := ("v") ++ toString n
  (lbl, { b with counter := n + 1, labels := b.labels ++ [lbl] })

/-- Modelled from the spec: one builder call as a state transition.
Serialization of each chain is a fixed function of the call's arguments
and the current state only. -/
def FGB.step (b : FGB) : FGCall → FGB
  | .addBase idx expr =>
    let (lbl, b2) := b.newLabel
    { b2 with
      chains := b2.chains ++
        [("[") ++ toString idx ++ (":v]") ++ expr ++ ("[") ++ lbl ++ ("]")]
      current := lbl }
  | .addScaledInput idx lbl =>
    { b with
      chains := b.chains ++
        [("[") ++ toString idx ++
          (":v]scale=w:h,format=rgba,setpts=PTS-STARTPTS[") ++ lbl ++ ("]")] }
  | .overlay lbl enable =>
    let (out, b2) := b.newLabel
    let en := match enable with
      | none => ""
      | some e => ("=enable=") ++ e
    { b2 with
      chains := b2.chains ++
        [("[") ++ b.current ++ ("][") ++ lbl ++ ("]overlay") ++ en ++
          ("[") ++ out ++ ("]")]
      current := out }
  | .chromaKeyOverlay idx color sim blend enable =>
    let (ck, b2) := b.newLabel
    let (out, b3) := b2.newLabel
    { b3 with
      chains := b3.chains ++
        [("[") ++ toString idx ++ (":v]scale,format=rgba,chromakey=") ++
          color ++ (":") ++ toString sim ++ (":") ++ toString blend ++
          ("[") ++ ck ++ ("]"),
          ("[") ++ b.current ++ ("][") ++ ck ++ ("]overlay=enable=") ++
            enable ++ ("[") ++ out ++ ("]")]
      current := out }
  | .burnSubtitles path fontsDir fontName marginV =>
    let (out, b2) := b.newLabel
    { b2 with
      chains := b2.chains ++
        [("[") ++ b.current ++ ("]subtitles=") ++ path ++ (":fontsdir=") ++
          fontsDir ++ (":force_style=FontName=") ++ fontName ++
          (",MarginV=") ++ toString marginV ++ ("[") ++ out ++ ("]")]
      current := out }

/-- The initial builder state. -/
def FGB.init : FGB := { chains := [], counter := 0, current := "", labels := [] }

/-- Run a sequence of builder calls from the initial state. -/
def FGB.run (calls : List FGCall) : FGB := calls.foldl FGB.step FGB.init

/-- Modelled from the spec: finalize() — append a final pixel-format
normalization stage and join every chain with ";". -/
def FGB.finalizeGraph (b : FGB) : String :=
  String.intercalate (";")
    (b.chains ++ [("[") ++ b.current ++ ("]format=yuv420p[vout]")])

/-- Build the full graph string from a call sequence. -/
def FGB.build (calls : List FGCall) : String :=
  (FGB.run calls).finalizeGraph

/-- Number of labels a call allocates. -/
def FGCall.allocCount : FGCall → ℕ
  | .addBase _ _ => 1
  | .addScaledInput _ _ => 0
  | .overlay _ _ => 1
  | .chromaKeyOverlay _ _ _ _ _ => 2
  | .burnSubtitles _ _ _ _ => 1

/-- Total number of labels allocated by a call sequence. -/
def allocTotal (calls : List FGCall) : ℕ :=
  (calls.map FGCall.allocCount).sum

lemma sanitize_db_fin (q mn mx d : ℚ) :
    _sanitize_db (.fin q) mn mx d = max mn (min mx q) := rfl

lemma channelGain_bounds (I : ℚ) (st : LoudStats) :
    -24 ≤ channelGain I st ∧ channelGain I st ≤ 24 := by
  unfold channelGain
  cases h : EFloat.sub (.fin I) (measuredInput I st) with
  | fin q =>
    refine ⟨le_max_left _ _, max_le (by norm_num) (min_le_left _ _)⟩
  | pinf => exact ⟨by norm_num [_sanitize_db], by norm_num [_sanitize_db]⟩
  | ninf => exact ⟨by norm_num [_sanitize_db], by norm_num [_sanitize_db]⟩
  | nan => exact ⟨by norm_num [_sanitize_db], by norm_num [_sanitize_db]⟩

lemma sanitize_channelGain (I : ℚ) (st : LoudStats) :
    _sanitize_db (.fin (channelGain I st)) (-24) 24 0 = channelGain I st := by
  obtain ⟨h1, h2⟩ := channelGain_bounds I st
  rw [sanitize_db_fin, min_eq_right h2, max_eq_right h1]

/-- C10: `CaptionConfig.from_cfg` floors `border_thickness` at 2 and both
word caps at 1, for every input cfg object, including ones supplying zero
or negative values. -/
theorem C10_from_cfg_floors (cfg : CfgAttrs) :
    2 ≤ (CaptionConfig.from_cfg cfg).border_thickness ∧
    1 ≤ (CaptionConfig.from_cfg cfg).max_words_per_line ∧
    1 ≤ (CaptionConfig.from_cfg cfg).max_words_per_caption :=
  ⟨le_max_left _ _, le_max_left _ _, le_max_left _ _⟩

/-- C7: `AudioProcessor.normalize` fails with a not-found error whenever
the source audio file is missing, and — the source being present — fails
with a type error whenever a target field is absent or non-numeric; in
both cases the trace of external processing stages is empty. -/
theorem C7_normalize_validation (cfg : NormCfg) (env : MeasEnv) :
    AudioProcessor.normalize false cfg env = (.error .fileNotFound, []) ∧
    ((cfg.target_lufs.bind id = none ∨ cfg.target_lra.bind id = none ∨
        cfg.target_tp.bind id = none) →
      AudioProcessor.normalize true cfg env = (.error .typeError, [])) := by
  constructor
  · rfl
  · intro h
    unfold AudioProcessor.normalize
    cases hl : cfg.target_lufs.bind id <;>
      cases hr : cfg.target_lra.bind id <;>
      cases ht : cfg.target_tp.bind id <;>
      rw [hl, hr, ht] at h <;>
      simp_all

/-- C1: the pre-balancing gain for a channel equals
`clamp(target_I - measured_I, -24, 24)`; a NaN/infinite difference is
sanitized to 0 dB; the gain always lies in [-24, 24]; and this gain is
exactly what the channelsplit/volume/join stage of `normalize` receives. -/
theorem C1_channel_gain (I : ℚ) (st : LoudStats) (cfg : NormCfg)
    (env : MeasEnv) (hI : cfg.target_lufs.bind id = some I)
    (hL : (cfg.target_lra.bind id).isSome = true)
    (hT : (cfg.target_tp.bind id).isSome = true) :
    (∀ q : ℚ, EFloat.sub (.fin I) (measuredInput I st) = .fin q →
      channelGain I st = max (-24) (min 24 q)) ∧
    ((EFloat.sub (.fin I) (measuredInput I st)).isFinite = false →
      channelGain I st = 0) ∧
    (-24 ≤ channelGain I st ∧ channelGain I st ≤ 24) ∧
    Cmd.applyGain (channelGain I env.left_stats)
        (channelGain I env.right_stats) ∈
      (AudioProcessor.normalize true cfg env).2 := by
  refine ⟨?_, ?_, channelGain_bounds I st, ?_⟩
  · intro q hq
    unfold channelGain
    rw [hq, sanitize_db_fin]
  · intro hfin
    unfold channelGain
    cases hsub : EFloat.sub (.fin I) (measuredInput I st) <;>
      simp_all [_sanitize_db, EFloat.isFinite]
  · obtain ⟨lra, hlra⟩ := Option.isSome_iff_exists.mp hL
    obtain ⟨tp, htp⟩ := Option.isSome_iff_exists.mp hT
    unfold AudioProcessor.normalize
    rw [hI, hlra, htp]
    cases env.pass1_stats <;>
      simp [_apply_per_channel_gain, sanitize_channelGain]

/-- Concrete config for the C7 witness: `target_lufs` absent. -/
def c7cfg : NormCfg := ⟨none, some (some 11), some (some (-2))⟩

/-- Concrete environment for the C7 witness. -/
def c7env : MeasEnv := ⟨{}, {}, none⟩

/-- Witness for C7 at a concrete missing-target config. -/
theorem C7_normalize_validation_witness :
    c7cfg.target_lufs.bind id = none ∧
    AudioProcessor.normalize false c7cfg c7env = (.error .fileNotFound, []) ∧
    AudioProcessor.normalize true c7cfg c7env = (.error .typeError, []) :=
  ⟨rfl, (C7_normalize_validation c7cfg c7env).1,
    (C7_normalize_validation c7cfg c7env).2 (Or.inl rfl)⟩

/-- Concrete config for the C1 witness: targets (-16, 11, -2). -/
def c1cfg : NormCfg := ⟨some (some (-16)), some (some 11), some (some (-2))⟩

/-- Left channel measured at -10 LUFS for the C1 witness. -/
def c1stL : LoudStats := { input_i := some (.fin (-10)) }

/-- Right channel measured at -20 LUFS for the C1 witness. -/
def c1stR : LoudStats := { input_i := some (.fin (-20)) }

/-- Concrete environment for the C1 witness. -/
def c1env : MeasEnv := ⟨c1stL, c1stR, some {}⟩

/-- Witness for C1 at targets.I = -16 with the left channel at -10 LUFS. -/
theorem C1_channel_gain_witness :
    c1cfg.target_lufs.bind id = some (-16) ∧
    ((∀ q : ℚ, EFloat.sub (.fin (-16)) (measuredInput (-16) c1stL) = .fin q →
      channelGain (-16) c1stL = max (-24) (min 24 q)) ∧
    ((EFloat.sub (.fin (-16)) (measuredInput (-16) c1stL)).isFinite = false →
      channelGain (-16) c1stL = 0) ∧
    (-24 ≤ channelGain (-16) c1stL ∧ channelGain (-16) c1stL ≤ 24) ∧
    Cmd.applyGain (channelGain (-16) c1env.left_stats)
        (channelGain (-16) c1env.right_stats) ∈
      (AudioProcessor.normalize true c1cfg c1env).2) :=
  ⟨rfl, C1_channel_gain (-16) c1stL c1cfg c1env rfl rfl rfl⟩

lemma mem_pyStrip {c : Char} {l : List Char} (h : c ∈ pyStrip l) : c ∈ l := by
  unfold pyStrip at h
  rw [List.mem_reverse] at h
  have h2 := (List.dropWhile_sublist _).subset h
  rw [List.mem_reverse] at h2
  exact (List.dropWhile_sublist _).subset h2

/-- C5: the intended ASS text sanitizer never leaves a backslash or a
brace character in its output. -/
theorem C5_for_ass_no_structural_chars (s : String) :
    (TextSanitizer.for_ass s).data.all
      (fun c => !(c = '\\' || c = '\x7b' || c = '\x7d')) = true := by
  rw [List.all_eq_true]
  intro c hc
  have hmem : c ∈ (s.data.filter (fun c => !isCtrl c)).map assRepl :=
    mem_pyStrip hc
  obtain ⟨x, _, rfl⟩ := List.mem_map.mp hmem
  unfold assRepl
  split_ifs with h1 h2 h3
  · decide
  · decide
  · decide
  · simp [h1, h2, h3]

/-- C4: the intended last-JSON-block extraction returns the final
balanced block of a diagnostic stream (earlier and nested blocks are
discarded) and the empty report when no block is present. -/
theorem C4_extract_last_json_model :
    _extract_last_json
      ("init \x7b\"a\": \x7b\"b\": 1\x7d\x7d noise \x7b\"input_i\": \"-23.0\"\x7d tail") =
      some ("\x7b\"input_i\": \"-23.0\"\x7d") ∧
    _extract_last_json ("no blocks") = none := by
  constructor
  · rfl
  · rfl

lemma pymax0_cases (v : EFloat) :
    (v = .pinf ∧ pymax (.fin 0) v = .pinf) ∨
    (∃ q : ℚ, 0 ≤ q ∧ pymax (.fin 0) v = .fin q ∧
      (v.isFinite = false → q = 0)) := by
  cases v with
  | fin q =>
    right
    by_cases h : (0 : ℚ) < q
    · exact ⟨q, le_of_lt h, by simp [pymax, EFloat.lt, h], by
        simp [EFloat.isFinite]⟩
    · refine ⟨0, le_refl 0, ?_, fun _ => rfl⟩
      simp [pymax, EFloat.lt, h]
  | pinf => exact Or.inl ⟨rfl, by simp [pymax, EFloat.lt]⟩
  | ninf => exact Or.inr ⟨0, le_refl 0, by simp [pymax, EFloat.lt], fun _ => rfl⟩
  | nan => exact Or.inr ⟨0, le_refl 0, by simp [pymax, EFloat.lt], fun _ => rfl⟩

/-- C3: the clamped pair is always finite with `s ≥ 0` and
`e ≥ s + 0.001`; when both offset-shifted endpoints are non-finite the
result is the default 1 ms window `(0.0, 0.001)`. -/
theorem C3_time_clamp (start «end» offset : EFloat) :
    ∃ s e : ℚ, TimeFormatter.clamp start «end» offset = (.fin s, .fin e) ∧
      0 ≤ s ∧ s + 1/1000 ≤ e ∧
      (((EFloat.add start offset).isFinite = false ∧
          (EFloat.add «end» offset).isFinite = false) →
        (s = 0 ∧ e = 1/1000)) := by
  unfold TimeFormatter.clamp
  rcases pymax0_cases (EFloat.add start offset) with ⟨ha, hs0⟩ |
    ⟨qs, hqs0, hs0, hqs⟩
  · rw [hs0]
    refine ⟨0, 1/1000, ?_, le_refl 0, by norm_num, fun _ => ⟨rfl, rfl⟩⟩
    norm_num [EFloat.isFinite, EFloat.lt, EFloat.sub, EFloat.add, EFloat.neg]
  · rcases pymax0_cases (EFloat.add «end» offset) with ⟨hb, he0⟩ |
      ⟨qe, hqe0, he0, hqe⟩
    · rw [hs0, he0]
      refine ⟨0, 1/1000, ?_, le_refl 0, by norm_num, fun _ => ⟨rfl, rfl⟩⟩
      norm_num [EFloat.isFinite, EFloat.lt, EFloat.sub, EFloat.add, EFloat.neg]
    · rw [hs0, he0]
      by_cases hlt : qe < qs
      · refine ⟨qs, qs + 1/1000, ?_, hqs0, le_refl _, fun h => ?_⟩
        · norm_num [EFloat.isFinite, EFloat.lt, EFloat.sub, EFloat.add,
            EFloat.neg, hlt]
        · exact absurd (hqe h.2 ▸ hqs h.1 ▸ hlt) (lt_irrefl 0)
      · by_cases hsmall : qe - qs < 1/1000
        · refine ⟨qs, qs + 1/1000, ?_, hqs0, le_refl _, fun h => ?_⟩
          · norm_num [EFloat.isFinite, EFloat.lt, EFloat.sub, EFloat.add,
              EFloat.neg, hlt, hsmall]
            intro hcon
            linarith
          · rw [hqs h.1]
            exact ⟨rfl, by norm_num⟩
        · refine ⟨qs, qe, ?_, hqs0, by linarith, fun h => ?_⟩
          · norm_num [EFloat.isFinite, EFloat.lt, EFloat.sub, EFloat.add,
              EFloat.neg, hlt, hsmall]
            intro hcon
            linarith
          · exact absurd (by rw [hqs h.1, hqe h.2]; norm_num) hsmall

/-- Witness for C3 at concrete non-finite shifted endpoints. -/
theorem C3_time_clamp_witness :
    ∃ s e : ℚ,
      TimeFormatter.clamp EFloat.nan EFloat.pinf (.fin 0) =
        (.fin s, .fin e) ∧ 0 ≤ s ∧ s + 1/1000 ≤ e ∧
      (((EFloat.add EFloat.nan (.fin 0)).isFinite = false ∧
          (EFloat.add EFloat.pinf (.fin 0)).isFinite = false) →
        (s = 0 ∧ e = 1/1000)) :=
  C3_time_clamp EFloat.nan EFloat.pinf (.fin 0)

/-- C8: `CTACfg.validate` rejects every `repeat_s` outside
`[0.01, 36000]` (in particular `repeat_s = 0`), and the spec-modelled CTA
gating predicate with start 30 and repeat 120 holds exactly at the point
instants `t = 30 + 120·k`. -/
theorem C8_cta_validation_and_gate (c : CTACfg) (t : ℚ)
    (hr : ¬(1/100 ≤ c.repeat_s ∧ c.repeat_s ≤ 36000)) :
    (∃ msg, CTACfg.validate c = .error msg) ∧
    (ctaGate 30 120 t = true ↔ ∃ k : ℕ, t = 30 + 120 * k) := by
  constructor
  · unfold CTACfg.validate
    have hr2 : ¬((100 : ℚ)⁻¹ ≤ c.repeat_s ∧ c.repeat_s ≤ 36000) := by
      simpa using hr
    by_cases hs : (0 : ℚ) ≤ c.start_s ∧ c.start_s ≤ 36000
    · refine ⟨("cta.repeat_s") ++ (" out of range"), ?_⟩
      simp [_validate_float_range, Bind.bind, Except.bind, hs, hr2]
    · refine ⟨("cta.start_s") ++ (" out of range"), ?_⟩
      simp [_validate_float_range, Bind.bind, Except.bind, hs]
  · unfold ctaGate pyfmod pyint
    constructor
    · intro h
      rw [Bool.and_eq_true, decide_eq_true_iff, decide_eq_true_iff] at h
      obtain ⟨h30, hmod⟩ := h
      have hnn : (0 : ℚ) ≤ (t - 30) / 120 :=
        div_nonneg (by linarith) (by norm_num)
      rw [if_pos hnn] at hmod
      have hfl : (0 : ℤ) ≤ ⌊(t - 30) / 120⌋ := Int.floor_nonneg.mpr hnn
      refine ⟨(⌊(t - 30) / 120⌋).toNat, ?_⟩
      have ht : t - 30 = 120 * (⌊(t - 30) / 120⌋ : ℚ) := by linarith
      have hcast : ((⌊(t - 30) / 120⌋.toNat : ℕ) : ℚ) =
          ((⌊(t - 30) / 120⌋ : ℤ) : ℚ) := by
        exact_mod_cast congrArg (fun z : ℤ => (z : ℚ))
          (Int.toNat_of_nonneg hfl)
      rw [hcast]
      linarith
    · rintro ⟨k, rfl⟩
      rw [Bool.and_eq_true, decide_eq_true_iff, decide_eq_true_iff]
      constructor
      · have : (0 : ℚ) ≤ 120 * k := by positivity
        linarith
      · have h1 : (30 + 120 * (k : ℚ) - 30) / 120 = (k : ℚ) := by
          field_simp
        rw [h1]
        have h2 : (0 : ℚ) ≤ (k : ℚ) := by positivity
        rw [if_pos h2, Int.floor_natCast]
        push_cast
        ring

/-- Concrete CTA config with a zero repeat interval for the C8 witness. -/
def c8cfg : CTACfg :=
  ⟨none, 30, 0, "#00FF00", 1/10, 1/10, "Bottom"⟩

/-- Witness for C8 at `repeat_s = 0` and `t = 150`. -/
theorem C8_cta_validation_and_gate_witness :
    ¬(1/100 ≤ c8cfg.repeat_s ∧ c8cfg.repeat_s ≤ 36000) ∧
    ((∃ msg, CTACfg.validate c8cfg = .error msg) ∧
      (ctaGate 30 120 150 = true ↔ ∃ k : ℕ, (150 : ℚ) = 30 + 120 * k)) :=
  ⟨by show ¬((1 : ℚ)/100 ≤ 0 ∧ (0 : ℚ) ≤ 36000); norm_num,
    C8_cta_validation_and_gate c8cfg 150
      (by show ¬((1 : ℚ)/100 ≤ 0 ∧ (0 : ℚ) ≤ 36000); norm_num)⟩

/-- The label sequence `v s, v (s+1), ..., v (s+n-1)`. -/
def vlabels : ℕ → ℕ → List String
  | _, 0 => []
  | s, n + 1 => (("v") ++ toString s) :: vlabels (s + 1) n

lemma vlabels_add (m : ℕ) : ∀ (s n : ℕ),
    vlabels s (m + n) = vlabels s m ++ vlabels (s + m) n := by
  induction m with
  | zero => intro s n; simp [vlabels]
  | succ k ih =>
    intro s n
    have h1 : k + 1 + n = (k + n) + 1 := by omega
    rw [h1]
    show (("v") ++ toString s) :: vlabels (s + 1) (k + n) = _
    rw [ih (s + 1) n]
    have h2 : s + 1 + k = s + (k + 1) := by omega
    simp [vlabels, h2]

lemma step_labels (b : FGB) (c : FGCall) :
    (FGB.step b c).labels = b.labels ++ vlabels b.counter c.allocCount ∧
    (FGB.step b c).counter = b.counter + c.allocCount := by
  cases c <;> simp [FGB.step, FGB.newLabel, FGCall.allocCount, vlabels]

lemma run_from (calls : List FGCall) : ∀ (b : FGB),
    (calls.foldl FGB.step b).labels =
      b.labels ++ vlabels b.counter (allocTotal calls) ∧
    (calls.foldl FGB.step b).counter = b.counter + allocTotal calls := by
  induction calls with
  | nil => intro b; simp [allocTotal, vlabels]
  | cons c cs ih =>
    intro b
    rw [List.foldl_cons]
    obtain ⟨ih1, ih2⟩ := ih (FGB.step b c)
    obtain ⟨st1, st2⟩ := step_labels b c
    have htot : allocTotal (c :: cs) = c.allocCount + allocTotal cs := by
      simp [allocTotal]
    constructor
    · rw [ih1, st1, st2, htot, vlabels_add, List.append_assoc]
    · rw [ih2, st2, htot]
      omega

/-- C9: the FilterGraphBuilder is deterministic — an identical call
sequence always produces a byte-identical final graph string — and label
allocation is fixed by call order: the allocated labels are exactly
`v0, v1, ...` in sequence, one block per call in call order. -/
theorem C9_builder_deterministic (calls : List FGCall) :
    FGB.build calls = FGB.build calls ∧
    (FGB.run calls).labels = vlabels 0 (allocTotal calls) ∧
    (FGB.run calls).counter = allocTotal calls := by
  refine ⟨rfl, ?_, ?_⟩
  · have h := (run_from calls FGB.init).1
    simpa [FGB.run, FGB.init] using h
  · have h := (run_from calls FGB.init).2
    simpa [FGB.run, FGB.init] using h

lemma splitSentencesGo_nil (ss : List (List Word)) (cur : List Word) :
    splitSentencesGo ss cur [] = if cur = [] then ss else ss ++ [cur] := rfl

lemma splitSentencesGo_cons (ss : List (List Word)) (cur : List Word)
    (w : Word) (ws : List Word) :
    splitSentencesGo ss cur (w :: ws) =
      if w.is_sentence_end then splitSentencesGo (ss ++ [cur ++ [w]]) [] ws
      else splitSentencesGo ss (cur ++ [w]) ws := rfl

lemma chunkSentence_nil (cfg : CaptionConfig) (cur : List Word) :
    chunkSentence cfg cur [] = if cur = [] then [] else [cur] := rfl

lemma chunkSentence_cons (cfg : CaptionConfig) (cur : List Word) (w : Word)
    (ws : List Word) :
    chunkSentence cfg cur (w :: ws) =
      if cfg.max_words_per_caption ≤ ((cur ++ [w]).length : ℤ) ∨
          cfg.max_caption_ms ≤ pyint ((w.«end» -
            (match cur with | [] => w | c :: _ => c).start) * 1000) then
        (cur ++ [w]) :: chunkSentence cfg [] ws
      else chunkSentence cfg (cur ++ [w]) ws := rfl

lemma splitSentencesGo_flatten : ∀ (ws : List Word) (ss : List (List Word))
    (cur : List Word),
    (splitSentencesGo ss cur ws).flatten = ss.flatten ++ (cur ++ ws) := by
  intro ws
  induction ws with
  | nil =>
    intro ss cur
    rw [splitSentencesGo_nil]
    by_cases h : cur = []
    · simp [h]
    · simp [h]
  | cons w ws ih =>
    intro ss cur
    rw [splitSentencesGo_cons]
    by_cases h : w.is_sentence_end
    · rw [if_pos h, ih]
      simp
    · rw [if_neg h, ih]
      simp

lemma splitSentencesGo_ne_nil : ∀ (ws : List Word) (ss : List (List Word))
    (cur : List Word), (∀ s ∈ ss, s ≠ []) →
    ∀ s ∈ splitSentencesGo ss cur ws, s ≠ [] := by
  intro ws
  induction ws with
  | nil =>
    intro ss cur hss s hs
    rw [splitSentencesGo_nil] at hs
    by_cases h : cur = []
    · exact hss s (by simpa [h] using hs)
    · rw [if_neg h] at hs
      rcases List.mem_append.mp hs with hmem | hmem
      · exact hss s hmem
      · rw [List.mem_singleton.mp hmem]
        exact h
  | cons w ws ih =>
    intro ss cur hss
    rw [splitSentencesGo_cons]
    by_cases h : w.is_sentence_end
    · rw [if_pos h]
      refine ih _ _ ?_
      intro s hs
      rcases List.mem_append.mp hs with hmem | hmem
      · exact hss s hmem
      · rw [List.mem_singleton.mp hmem]
        simp
    · rw [if_neg h]
      exact ih _ _ hss

lemma chunkSentence_flatten (cfg : CaptionConfig) : ∀ (ws cur : List Word),
    (chunkSentence cfg cur ws).flatten = cur ++ ws := by
  intro ws
  induction ws with
  | nil =>
    intro cur
    rw [chunkSentence_nil]
    by_cases h : cur = []
    · simp [h]
    · simp [h]
  | cons w ws ih =>
    intro cur
    rw [chunkSentence_cons]
    split_ifs with h
    · rw [List.flatten_cons, ih]
      simp
    · rw [ih]
      simp

lemma chunkSentence_ne_nil (cfg : CaptionConfig) : ∀ (ws cur : List Word),
    ∀ c ∈ chunkSentence cfg cur ws, c ≠ [] := by
  intro ws
  induction ws with
  | nil =>
    intro cur c hc
    rw [chunkSentence_nil] at hc
    by_cases h : cur = []
    · simp [h] at hc
    · rw [if_neg h] at hc
      rw [List.mem_singleton.mp hc]
      exact h
  | cons w ws ih =>
    intro cur c hc
    rw [chunkSentence_cons] at hc
    split_ifs at hc with h
    · rcases List.mem_cons.mp hc with rfl | hmem
      · simp
      · exact ih [] c hmem
    · exact ih (cur ++ [w]) c hc

lemma chunkSentence_le (cfg : CaptionConfig)
    (hcap : 1 ≤ cfg.max_words_per_caption) : ∀ (ws cur : List Word),
    (cur.length : ℤ) < cfg.max_words_per_caption →
    ∀ c ∈ chunkSentence cfg cur ws,
      (c.length : ℤ) ≤ cfg.max_words_per_caption := by
  intro ws
  induction ws with
  | nil =>
    intro cur hlt c hc
    rw [chunkSentence_nil] at hc
    by_cases h : cur = []
    · simp [h] at hc
    · rw [if_neg h] at hc
      rw [List.mem_singleton.mp hc]
      exact le_of_lt hlt
  | cons w ws ih =>
    intro cur hlt c hc
    rw [chunkSentence_cons] at hc
    split_ifs at hc with h
    · rcases List.mem_cons.mp hc with rfl | hmem
      · simp only [List.length_append, List.length_singleton]
        push_cast
        omega
      · exact ih [] (by simpa using hcap) c hmem
    · refine ih (cur ++ [w]) ?_ c hc
      rcases not_or.mp h with ⟨h1, _⟩
      simpa using lt_of_not_le h1

lemma split_into_chunks_flatten (cfg : CaptionConfig) :
    ∀ ss : List (List Word),
    (_split_into_chunks cfg ss).flatten = ss.flatten := by
  intro ss
  induction ss with
  | nil => simp [_split_into_chunks]
  | cons s rest ih =>
    simp only [_split_into_chunks, List.map_cons, List.flatten_cons,
      List.flatten_append] at ih ⊢
    rw [chunkSentence_flatten cfg s []]
    rw [ih]
    simp

lemma mem_split_into_chunks (cfg : CaptionConfig) (ss : List (List Word))
    (c : List Word) (hc : c ∈ _split_into_chunks cfg ss) :
    ∃ s ∈ ss, c ∈ chunkSentence cfg [] s := by
  unfold _split_into_chunks at hc
  rw [List.mem_flatten] at hc
  obtain ⟨l, hl, hcl⟩ := hc
  obtain ⟨s, hs, rfl⟩ := List.mem_map.mp hl
  exact ⟨s, hs, hcl⟩

/-- C2 (amended with `max_words_per_caption ≥ 1`): segmentation preserves
the word sequence exactly — the chunks concatenate back to the input in
order — every chunk is non-empty, and no chunk exceeds the word cap. -/
theorem C2_segment_chunks (cfg : CaptionConfig) (ws : List Word)
    (hcap : 1 ≤ cfg.max_words_per_caption) :
    (CaptionSegmenter.segment cfg ws).flatten = ws ∧
    (∀ c ∈ CaptionSegmenter.segment cfg ws, c ≠ []) ∧
    (∀ c ∈ CaptionSegmenter.segment cfg ws,
      (c.length : ℤ) ≤ cfg.max_words_per_caption) := by
  refine ⟨?_, ?_, ?_⟩
  · show (_split_into_chunks cfg (_split_into_sentences ws)).flatten = ws
    rw [split_into_chunks_flatten]
    unfold _split_into_sentences
    rw [splitSentencesGo_flatten]
    simp
  · intro c hc
    obtain ⟨s, _, hcs⟩ := mem_split_into_chunks cfg _ c hc
    exact chunkSentence_ne_nil cfg s [] c hcs
  · intro c hc
    obtain ⟨s, _, hcs⟩ := mem_split_into_chunks cfg _ c hc
    exact chunkSentence_le cfg hcap s [] (by simpa using hcap) c hcs

/-- Two concrete words forming one sentence, for the C2 witness. -/
def c2w1 : Word := ⟨0, 1/2, "Hello"⟩

/-- Second word of the C2 witness sentence. -/
def c2w2 : Word := ⟨1/2, 1, "world."⟩

/-- Witness for C2 at the default caption config and a two-word sentence. -/
theorem C2_segment_chunks_witness :
    1 ≤ ({} : CaptionConfig).max_words_per_caption ∧
    ((CaptionSegmenter.segment {} [c2w1, c2w2]).flatten = [c2w1, c2w2] ∧
    (∀ c ∈ CaptionSegmenter.segment {} [c2w1, c2w2], c ≠ []) ∧
    (∀ c ∈ CaptionSegmenter.segment {} [c2w1, c2w2],
      (c.length : ℤ) ≤ ({} : CaptionConfig).max_words_per_caption)) :=
  ⟨by decide, C2_segment_chunks {} [c2w1, c2w2] (by decide)⟩

/-- Caption config with a zero word cap, showing the unamended C2 false. -/
def c2cfg0 : CaptionConfig := { max_words_per_caption := 0 }

/-- Single word input for the C2 counterexample. -/
def c2w0 : Word := ⟨0, 1, "a"⟩

/-- Counterexample to C2 as stated: with `max_words_per_caption = 0` (a
legal `CaptionConfig`), the single produced chunk holds 1 > 0 words, so
"no chunk contains more than max_words_per_caption words" fails. -/
theorem C2_counterexample :
    ¬((CaptionSegmenter.segment c2cfg0 [c2w0]).flatten = [c2w0] ∧
      (∀ c ∈ CaptionSegmenter.segment c2cfg0 [c2w0], c ≠ []) ∧
      (∀ c ∈ CaptionSegmenter.segment c2cfg0 [c2w0],
        (c.length : ℤ) ≤ c2cfg0.max_words_per_caption)) := by
  intro h
  have hmem : [c2w0] ∈ CaptionSegmenter.segment c2cfg0 [c2w0] := by decide
  have hle := h.2.2 [c2w0] hmem
  revert hle
  decide

lemma pyUpper_spec (c : Char) (h : isHexDig c = true) :
    isHexDig (pyUpper c) = true ∧ (pyUpper c).isWhitespace = false ∧
    ((pyUpper c) == '#') = false ∧ pyUpper (pyUpper c) = pyUpper c ∧
    hexVal (pyUpper c) = hexVal c := by
  by_cases h1 : c = 'a'
  · subst h1; exact ⟨by decide, by decide, by decide, by decide, by decide⟩
  by_cases h2 : c = 'b'
  · subst h2; exact ⟨by decide, by decide, by decide, by decide, by decide⟩
  by_cases h3 : c = 'c'
  · subst h3; exact ⟨by decide, by decide, by decide, by decide, by decide⟩
  by_cases h4 : c = 'd'
  · subst h4; exact ⟨by decide, by decide, by decide, by decide, by decide⟩
  by_cases h5 : c = 'e'
  · subst h5; exact ⟨by decide, by decide, by decide, by decide, by decide⟩
  by_cases h6 : c = 'f'
  · subst h6; exact ⟨by decide, by decide, by decide, by decide, by decide⟩
  have hup : pyUpper c = c := by simp [pyUpper, h1, h2, h3, h4, h5, h6]
  rw [hup]
  refine ⟨h, ?_, ?_, hup, rfl⟩
  · by_cases hs : c = ' '
    · subst hs; exact absurd h (by decide)
    by_cases ht : c = '\t'
    · subst ht; exact absurd h (by decide)
    by_cases hr : c = '\r'
    · subst hr; exact absurd h (by decide)
    by_cases hn : c = '\n'
    · subst hn; exact absurd h (by decide)
    simp [Char.isWhitespace, hs, ht, hr, hn]
  · by_cases hh : c = '#'
    · subst hh; exact absurd h (by decide)
    · simp [hh]

lemma list_len6 {α : Type} (l : List α) (h : l.length = 6) :
    ∃ a b c d e f, l = [a, b, c, d, e, f] := by
  rcases l with _ | ⟨a, l⟩
  · simp at h
  rcases l with _ | ⟨b, l⟩
  · simp at h
  rcases l with _ | ⟨c, l⟩
  · simp at h
  rcases l with _ | ⟨d, l⟩
  · simp at h
  rcases l with _ | ⟨e, l⟩
  · simp at h
  rcases l with _ | ⟨f, l⟩
  · simp at h
  rcases l with _ | ⟨g, l⟩
  · exact ⟨a, b, c, d, e, f, rfl⟩
  · simp at h

lemma hexToBgrL_eq (cs : List Char) :
    hexToBgrL cs =
      if ((pyStrip cs).dropWhile (fun c => c == '#')).length = 6 ∧
          ((pyStrip cs).dropWhile (fun c => c == '#')).all isHexDig = true
      then (bgrOfDigits ((pyStrip cs).dropWhile (fun c => c == '#'))).map
        pyUpper
      else ['F', 'F', 'F', 'F', 'F', 'F'] := rfl

/-- C6: hex-to-BGR conversion is order-reversing — `"#FF5733"` maps to
`"3357FF"` — and round-trips: applying it twice to a valid 6-hex-digit
color restores the original digits (upper-cased as strings, identical as
hex digit values). -/
theorem C6_hex_round_trip :
    hex_to_bgr ("#FF5733") = ("3357FF") ∧
    ∀ s : String,
      ((pyStrip s.data).dropWhile (fun c => c == '#')).length = 6 →
      ((pyStrip s.data).dropWhile (fun c => c == '#')).all isHexDig = true →
      ((hex_to_bgr (hex_to_bgr s)).data.map hexVal =
        ((pyStrip s.data).dropWhile (fun c => c == '#')).map hexVal ∧
      hex_to_bgr (hex_to_bgr s) =
        String.mk (((pyStrip s.data).dropWhile (fun c => c == '#')).map
          pyUpper)) := by
  constructor
  · decide
  intro s hlen hall
  obtain ⟨c1, c2, c3, c4, c5, c6, hform⟩ :=
    list_len6 ((pyStrip s.data).dropWhile (fun c => c == '#')) hlen
  rw [hform] at hall
  simp only [List.all_cons, List.all_nil, Bool.and_eq_true, and_true] at hall
  obtain ⟨h1, h2, h3, h4, h5, h6⟩ := hall
  obtain ⟨hx1, hw1, hs1, hi1, hv1⟩ := pyUpper_spec c1 h1
  obtain ⟨hx2, hw2, hs2, hi2, hv2⟩ := pyUpper_spec c2 h2
  obtain ⟨hx3, hw3, hs3, hi3, hv3⟩ := pyUpper_spec c3 h3
  obtain ⟨hx4, hw4, hs4, hi4, hv4⟩ := pyUpper_spec c4 h4
  obtain ⟨hx5, hw5, hs5, hi5, hv5⟩ := pyUpper_spec c5 h5
  obtain ⟨hx6, hw6, hs6, hi6, hv6⟩ := pyUpper_spec c6 h6
  have happ1 : hex_to_bgr s = String.mk [pyUpper c5, pyUpper c6, pyUpper c3,
      pyUpper c4, pyUpper c1, pyUpper c2] := by
    unfold hex_to_bgr
    rw [hexToBgrL_eq, hform]
    rw [if_pos ⟨by simp, by
      simp only [List.all_cons, List.all_nil, Bool.and_eq_true, and_true]
      exact ⟨h1, h2, h3, h4, h5, h6⟩⟩]
    rfl
  have hstrip : pyStrip [pyUpper c5, pyUpper c6, pyUpper c3, pyUpper c4,
      pyUpper c1, pyUpper c2] = [pyUpper c5, pyUpper c6, pyUpper c3,
      pyUpper c4, pyUpper c1, pyUpper c2] := by
    simp [pyStrip, List.dropWhile_cons, hw1, hw2, hw5]
  have hdrop : (pyStrip [pyUpper c5, pyUpper c6, pyUpper c3, pyUpper c4,
        pyUpper c1, pyUpper c2]).dropWhile (fun c => c == '#') =
      [pyUpper c5, pyUpper c6, pyUpper c3, pyUpper c4, pyUpper c1,
        pyUpper c2] := by
    rw [hstrip]
    simp [List.dropWhile_cons, hs5]
  have happ2 : hex_to_bgr (hex_to_bgr s) = String.mk [pyUpper c1, pyUpper c2,
      pyUpper c3, pyUpper c4, pyUpper c5, pyUpper c6] := by
    rw [happ1]
    unfold hex_to_bgr
    rw [hexToBgrL_eq]
    rw [show (String.mk [pyUpper c5, pyUpper c6, pyUpper c3, pyUpper c4,
      pyUpper c1, pyUpper c2]).data = [pyUpper c5, pyUpper c6, pyUpper c3,
      pyUpper c4, pyUpper c1, pyUpper c2] from rfl]
    rw [hdrop]
    rw [if_pos ⟨by simp, by
      simp only [List.all_cons, List.all_nil, Bool.and_eq_true, and_true]
      exact ⟨hx5, hx6, hx3, hx4, hx1, hx2⟩⟩]
    show String.mk ([pyUpper c1, pyUpper c2, pyUpper c3, pyUpper c4,
      pyUpper c5, pyUpper c6].map pyUpper) = _
    simp [hi1, hi2, hi3, hi4, hi5, hi6]
  constructor
  · rw [happ2, hform]
    simp [hv1, hv2, hv3, hv4, hv5, hv6]
  · rw [happ2, hform]
    rfl

/-- Witness for C6 at the lower-case color "#ff5733". -/
theorem C6_hex_round_trip_witness :
    ((pyStrip ("#ff5733").data).dropWhile (fun c => c == '#')).length = 6 ∧
    ((pyStrip ("#ff5733").data).dropWhile (fun c => c == '#')).all isHexDig
      = true ∧
    ((hex_to_bgr (hex_to_bgr ("#ff5733"))).data.map hexVal =
      ((pyStrip ("#ff5733").data).dropWhile (fun c => c == '#')).map hexVal ∧
    hex_to_bgr (hex_to_bgr ("#ff5733")) =
      String.mk (((pyStrip ("#ff5733").data).dropWhile
        (fun c => c == '#')).map pyUpper)) :=
  ⟨by decide, by decide,
    C6_hex_round_trip.2 ("#ff5733") (by decide) (by decide)⟩
